import Mathlib

/-!
Verification development for the truffle-decoder contract instance decoder
(`packages/truffle-decoder/lib/contract.ts`).

The definitions below are a shallow embedding of `TruffleContractInstanceDecoder`:
its slot path builder (`constructSlot`), the mapping key registry operations
(`watchMappingKey` / `unwatchMappingKey`), and the storage word cache
(`getStorage`).  JavaScript machine behaviour is made explicit:
a thrown `TypeError` (e.g. reading `.definition` of `undefined`) becomes the
`Except.error` branch, an omitted (`undefined`) boolean field becomes `false`,
and an omitted optional field becomes `none`.
-/

/-- Tags of elementary (mapping-key) types. -/
inductive ElemType where
  | uintT
  | addressT
  | bytesT
  | boolT
  | stringT
deriving DecidableEq, Repr

/-- Raw JavaScript values accepted as indices / mapping keys
(`indices: any[]` in the source): plain numbers, strings, booleans,
and `BN` big-number objects. -/
inductive Idx where
  | num (n : Nat)
  | str (s : String)
  | boolIdx (b : Bool)
  | bn (n : Nat)
deriving DecidableEq, Repr

/-- The payload of a wrapped elementary value. -/
inductive CoercedValue where
  | intVal (n : Nat)
  | bytesVal (s : String)
  | boolVal (b : Bool)
  | strVal (s : String)
  | rawVal (i : Idx)
deriving DecidableEq, Repr

/-- An elementary value tagged with its declared type
(the result of `wrapElementaryViaDefinition`). -/
structure ElementaryValue where
  etype : ElemType
  value : CoercedValue
deriving DecidableEq, Repr

/-- A storage slot: one link in an access chain
(`Codec.Slot`: `{path?: Slot, offset: BN, hashPath?: boolean, key?: ElementaryValue}`).
`base` is a slot with no parent (`path` undefined); `child` owns its parent by value.
A JS-`undefined` `hashPath` is modelled as `false`. -/
inductive Slot where
  | base (offset : Nat) (hashPath : Bool) (key : Option ElementaryValue)
  | child (path : Slot) (offset : Nat) (hashPath : Bool) (key : Option ElementaryValue)
deriving DecidableEq, Repr

/-- The slot's `offset` field. -/
def Slot.offset : Slot → Nat
  | .base o _ _ => o
  | .child _ o _ _ => o

/-- The slot's `hashPath` field. -/
def Slot.hashPath : Slot → Bool
  | .base _ h _ => h
  | .child _ _ h _ => h

/-- The slot's `key` field. -/
def Slot.key : Slot → Option ElementaryValue
  | .base _ _ k => k
  | .child _ _ _ k => k

/-- The slot's `path` field (the parent slot, or `none` at the root). -/
def Slot.path : Slot → Option Slot
  | .base _ _ _ => none
  | .child p _ _ _ => some p

/-- `Codec.equalSlots`: structural slot equality.  Modelled from the spec:
two Slots are equal iff every level of their chains is equal in
(offset, hashPath, key) and parents are recursively equal — never by identity. -/
def equalSlots (a b : Slot) : Bool := decide (a = b)

/-- The root-ward walk of a slot: the slot itself followed by all its ancestors. -/
def slotChain : Slot → List Slot
  | .base o h k => [.base o h k]
  | .child p o h k => .child p o h k :: slotChain p

/-- Number of parent links above a slot. -/
def slotDepth : Slot → Nat
  | .base _ _ _ => 0
  | .child p _ _ _ => slotDepth p + 1

/-- AST definition node as consumed by `constructSlot`: its `name`, `id`,
and the type information queried through `DefinitionUtils.typeClass`,
`baseType`, `keyType`/`valueType`, `typeId`, and `isDynamicArray`. -/
inductive AstDefinition where
  | arrayDef (name : String) (id : Nat) (base : AstDefinition) (dynamic : Bool)
  | mappingDef (name : String) (id : Nat) (keyType : ElemType) (valueType : AstDefinition)
  | structDef (name : String) (id : Nat) (structId : Nat)
  | otherDef (name : String) (id : Nat)
deriving DecidableEq, Repr

/-- The definition's `name` field. -/
def AstDefinition.name : AstDefinition → String
  | .arrayDef n _ _ _ => n
  | .mappingDef n _ _ _ => n
  | .structDef n _ _ => n
  | .otherDef n _ => n

/-- The definition's `id` field. -/
def AstDefinition.id : AstDefinition → Nat
  | .arrayDef _ i _ _ => i
  | .mappingDef _ i _ _ => i
  | .structDef _ i _ => i
  | .otherDef _ i => i

/-- A storage size as returned by `Codec.storageSize`.  Modelled from the spec:
either a whole number of words or a byte count that is not a whole word count. -/
inductive StorageLength where
  | words (n : Nat)
  | bytes (n : Nat)
deriving DecidableEq, Repr

/-- `Codec.isWordsLength`. -/
def isWordsLength : StorageLength → Bool
  | .words _ => true
  | .bytes _ => false

/-- A variable's pointer: either a storage location (we keep `range.from.slot`,
the only part `constructSlot` reads) or a constant marker
(`pointer.location !== "storage"`). -/
inductive StoragePointer where
  | storagePtr (slot : Slot)
  | constantPtr
deriving DecidableEq, Repr

/-- `Codec.StorageMemberAllocation`: a variable's definition and pointer. -/
structure StorageMemberAllocation where
  definition : AstDefinition
  pointer : StoragePointer
deriving DecidableEq, Repr

/-- The immutable per-instance environment consumed by `constructSlot`:
`stateVariableReferences`, the struct member tables `allocations.storage`,
and the external `Codec.storageSize` collaborator (modelled as an oracle,
since its computation lives outside this file's source). -/
structure DecoderEnv where
  stateVariableReferences : List StorageMemberAllocation
  storageAllocations : Nat → Option (List StorageMemberAllocation)
  storageSize : AstDefinition → StorageLength

deriving instance DecidableEq for Except

/-- A JavaScript runtime exception (e.g. `TypeError` from dereferencing
`undefined`, or a `BN` constructor assertion). -/
inductive DecodeError where
  | typeError
deriving DecidableEq, Repr

/-- A variable reference: `variable: number | string`. -/
inductive VarRef where
  | num (n : Nat)
  | str (s : String)
deriving DecidableEq, Repr

/-- Parse a nonempty all-decimal-digit character list into a number. -/
def strToNatAux : List Char → Nat → Option Nat
  | [], acc => some acc
  | c :: rest, acc =>
    if 48 ≤ c.toNat ∧ c.toNat ≤ 57 then strToNatAux rest (acc * 10 + (c.toNat - 48))
    else none

/-- Numeric-string parsing (the conversion JS applies to a numeric string
before a loose comparison, and the `BN` constructor's accepted string form). -/
def strToNat (s : String) : Option Nat :=
  match s.toList with
  | [] => none
  | c :: rest => strToNatAux (c :: rest) 0

/-- JS loose equality `definition.id == variable`: a numeric string is
converted to a number before comparison. -/
def looseIdMatch (i : Nat) : VarRef → Bool
  | .num n => i == n
  | .str s =>
    match strToNat s with
    | some n => i == n
    | none => false

/-- The predicate of the `find` in `constructSlot`'s base case:
`definition.name === variable || definition.id == variable`
(strict name equality can only hold for a string argument). -/
def matchesVariable (v : VarRef) (d : AstDefinition) : Bool :=
  (match v with
   | .str s => d.name == s
   | .num _ => false) || looseIdMatch d.id v

/-- Coercion of a raw index to a `BN`, as performed in the array case:
a `BN` is cloned, numbers and numeric strings are accepted by the `BN`
constructor, anything else makes the constructor throw. -/
def toBN : Idx → Option Nat
  | .bn n => some n
  | .num n => some n
  | .str s => strToNat s
  | .boolIdx _ => none

/-- Modelled from the spec: `wrapElementaryViaDefinition` (defined in
`truffle-codec-utils`, outside this file's source) coerces the raw index
into an elementary value tagged with the mapping's declared key type —
numeric text to integer, hex text to bytes/address, boolean or
"true"/"false" text to boolean. -/
def wrapElementaryViaDefinition (raw : Idx) (t : ElemType) : ElementaryValue :=
  ⟨t,
    match t, raw with
    | .uintT, .num n => .intVal n
    | .uintT, .bn n => .intVal n
    | .uintT, .str s => .intVal ((strToNat s).getD 0)
    | .boolT, .boolIdx b => .boolVal b
    | .boolT, .str s => .boolVal (s == "true")
    | .bytesT, .str s => .bytesVal s
    | .addressT, .str s => .bytesVal s
    | .stringT, .str s => .strVal s
    | _, i => .rawVal i⟩

/-- `constructSlot`, on the reversed index list (the source peels off the
*last* index and recurses on the rest; here that last index is the head).
Returns `.error` exactly where the JS code would throw: a failed variable
lookup followed by `.definition`, a `BN` constructor on a non-numeric index,
a missing struct allocation table or member, or `.range` on a constant
member pointer. -/
def constructSlotRev (env : DecoderEnv) (var : VarRef) :
    List Idx → Except DecodeError (Option (Slot × AstDefinition))
  | [] =>
    match env.stateVariableReferences.find? (fun a => matchesVariable var a.definition) with
    | none => .error .typeError
    | some alloc =>
      match alloc.pointer with
      | .constantPtr => .ok none
      | .storagePtr slot => .ok (some (slot, alloc.definition))
  | rawIndex :: restRev =>
    match constructSlotRev env var restRev with
    | .error e => .error e
    | .ok none => .ok none
    | .ok (some (parentSlot, parentDefinition)) =>
      match parentDefinition with
      | .arrayDef _ _ baseType dynamic =>
        match toBN rawIndex with
        | none => .error .typeError
        | some index =>
          match env.storageSize baseType with
          | .words n => .ok (some (.child parentSlot (index * n) dynamic none, baseType))
          | .bytes _ => .ok none
      | .mappingDef _ _ keyType valueType =>
        .ok (some
          (.child parentSlot 0 false (some (wrapElementaryViaDefinition rawIndex keyType)),
           valueType))
      | .structDef _ _ structId =>
        match env.storageAllocations structId with
        | none => .error .typeError
        | some members =>
          match (match rawIndex with
                 | .num i => members[i]?
                 | .str s => members.find? (fun m => m.definition.name == s)
                 | _ => none) with
          | none => .error .typeError
          | some alloc =>
            match alloc.pointer with
            | .constantPtr => .error .typeError
            | .storagePtr memberSlot =>
              .ok (some (.child parentSlot memberSlot.offset false none, alloc.definition))
      | .otherDef _ _ => .ok none

/-- `TruffleContractInstanceDecoder.constructSlot`. -/
def constructSlot (env : DecoderEnv) (var : VarRef) (indices : List Idx) :
    Except DecodeError (Option (Slot × AstDefinition)) :=
  constructSlotRev env var indices.reverse

/-- The `while` loop of `watchMappingKey`: walk from the given slot toward the
root; while the current slot is not yet registered, append it (only if it has
a key) and move to its parent; stop at the first already-registered slot or
past the root. -/
def watchGo : Slot → List Slot → List Slot
  | .base o h k, keys =>
    if keys.all (fun e => !equalSlots e (.base o h k)) then
      if k.isSome then keys ++ [Slot.base o h k] else keys
    else keys
  | .child p o h k, keys =>
    if keys.all (fun e => !equalSlots e (.child p o h k)) then
      watchGo p (if k.isSome then keys ++ [Slot.child p o h k] else keys)
    else keys

/-- `TruffleContractInstanceDecoder.watchMappingKey`, acting on the
`mappingKeys` registry.  An exception from `constructSlot` propagates before
any mutation. -/
def watchMappingKey (env : DecoderEnv) (var : VarRef) (indices : List Idx)
    (mappingKeys : List Slot) : Except DecodeError (List Slot) :=
  match constructSlot env var indices with
  | .error e => .error e
  | .ok none => .ok mappingKeys
  | .ok (some (slot, _)) => .ok (watchGo slot mappingKeys)

/-- The inner `while` of `unwatchMappingKey`'s filter: does the root-ward walk
of `existing` contain a slot structurally equal to `target`? -/
def chainContains (target : Slot) : Slot → Bool
  | .base o h k => equalSlots (.base o h k) target
  | .child p o h k => equalSlots (.child p o h k) target || chainContains target p

/-- `TruffleContractInstanceDecoder.unwatchMappingKey`, acting on the
`mappingKeys` registry. -/
def unwatchMappingKey (env : DecoderEnv) (var : VarRef) (indices : List Idx)
    (mappingKeys : List Slot) : Except DecodeError (List Slot) :=
  match constructSlot env var indices with
  | .error e => .error e
  | .ok none => .ok mappingKeys
  | .ok (some (slot, _)) =>
    .ok (mappingKeys.filter (fun existingSlot => !chainContains slot existingSlot))

/-- One registry operation: a `watchMappingKey` or `unwatchMappingKey` call. -/
inductive RegistryOp where
  | watchOp (var : VarRef) (indices : List Idx)
  | unwatchOp (var : VarRef) (indices : List Idx)

/-- Apply one registry operation; a thrown exception leaves the registry
unchanged (both methods mutate `this.mappingKeys` only after `constructSlot`
returns). -/
def applyOp (env : DecoderEnv) (op : RegistryOp) (keys : List Slot) : List Slot :=
  match op with
  | .watchOp v idx =>
    match watchMappingKey env v idx keys with
    | .ok keys2 => keys2
    | .error _ => keys
  | .unwatchOp v idx =>
    match unwatchMappingKey env v idx keys with
    | .ok keys2 => keys2
    | .error _ => keys

/-- Apply a sequence of registry operations in order. -/
def applyOps (env : DecoderEnv) : List RegistryOp → List Slot → List Slot
  | [], keys => keys
  | op :: rest, keys => applyOps env rest (applyOp env op keys)

/-- `CodecUtils.EVM.WORD_SIZE`: a storage word is 32 bytes. -/
def WORD_SIZE : Nat := 32

/-- Modelled from the spec: `CodecUtils.Conversion.toBytes` (defined in
`truffle-codec-utils`, outside this file's source) pads or truncates the
fetched byte sequence to the requested length, padding on the left. -/
def toBytes (bs : List Nat) (len : Nat) : List Nat :=
  if bs.length ≤ len then List.replicate (len - bs.length) 0 ++ bs
  else bs.drop (bs.length - len)

/-- The mutable fetch state of an instance decoder: the three-level
`storageCache` (block → address → slot → word, with `BN` slot keys modelled
by their numeric value) plus the log of reads issued to the chain-access
collaborator (`web3.eth.getStorageAt`). -/
structure FetchState where
  storageCache : Nat → String → Nat → Option (List Nat)
  chainReads : List (String × Nat × Nat)

/-- The initial fetch state: empty cache, no reads issued. -/
def initFetchState : FetchState := ⟨fun _ _ _ => none, []⟩

/-- `TruffleContractInstanceDecoder.getStorage`.  `chain` is the chain-access
collaborator: raw bytes returned by `web3.eth.getStorageAt(address, slot, block)`. -/
def getStorage (chain : String → Nat → Nat → List Nat) (address : String)
    (slot : Nat) (block : Nat) (st : FetchState) : List Nat × FetchState :=
  match st.storageCache block address slot with
  | some w => (w, st)
  | none =>
    let word := toBytes (chain address slot block) WORD_SIZE
    (word,
     ⟨fun b a s =>
        if b = block ∧ a = address ∧ s = slot then some word else st.storageCache b a s,
      st.chainReads ++ [(address, slot, block)]⟩)

/-- Run a sequence of `getStorage` calls, threading the fetch state. -/
def runCalls (chain : String → Nat → Nat → List Nat) :
    List (String × Nat × Nat) → FetchState → FetchState
  | [], st => st
  | (a, s, b) :: rest, st => runCalls chain rest (getStorage chain a s b st).2

/-- The registry-ancestor closure invariant: every keyed slot on the chain of a
registered slot is itself registered. -/
def ancestorClosed (keys : List Slot) : Prop :=
  ∀ e ∈ keys, ∀ a ∈ slotChain e, a.key.isSome → a ∈ keys

/-- Every chain read issued so far has a corresponding cache entry. -/
def cacheCovers (st : FetchState) : Prop :=
  ∀ a s b, (a, s, b) ∈ st.chainReads → (st.storageCache b a s).isSome = true

/-- Every cached word has been normalized to the 32-byte word size. -/
def cacheWordsSized (st : FetchState) : Prop :=
  ∀ b a s w, st.storageCache b a s = some w → w.length = WORD_SIZE

/-- The fetch-state invariant maintained by `getStorage`. -/
def fetchInvariant (st : FetchState) : Prop :=
  cacheCovers st ∧ st.chainReads.Nodup ∧ cacheWordsSized st

/-! Concrete sample allocations, used to exercise the theorems below on the
layouts the spec discusses: a two-level nested mapping
`mapping(string => mapping(uint => uint)) a`, a dynamic array `arr` of
two-word elements, a statically sized array `parr` of packed (sub-word)
elements, and a constant variable `c`. -/

/-- The value type of the inner mapping of `a` (an elementary uint). -/
def uintLeafDef : AstDefinition := .otherDef "leaf" 3

/-- The inner `mapping(uint => uint)` of `a`. -/
def innerMapDef : AstDefinition := .mappingDef "inner" 2 .uintT uintLeafDef

/-- The state variable `a : mapping(string => mapping(uint => uint))`. -/
def aDef : AstDefinition := .mappingDef "a" 1 .stringT innerMapDef

/-- The element type of the dynamic array `arr` (two words each). -/
def arrElemDef : AstDefinition := .otherDef "elem" 11

/-- The state variable `arr`, a dynamically sized array. -/
def arrDef : AstDefinition := .arrayDef "arr" 10 arrElemDef true

/-- The element type of `parr`, occupying a non-whole number of words. -/
def packedElemDef : AstDefinition := .otherDef "packedElem" 21

/-- The state variable `parr`, a statically sized array of packed elements. -/
def packedArrDef : AstDefinition := .arrayDef "parr" 20 packedElemDef false

/-- The constant state variable `c` (pointer has no storage location). -/
def constDef : AstDefinition := .otherDef "c" 30

/-- A sample decoder environment holding the variables above at slots 0..2. -/
def demoEnv : DecoderEnv where
  stateVariableReferences :=
    [⟨aDef, .storagePtr (.base 0 false none)⟩,
     ⟨arrDef, .storagePtr (.base 1 false none)⟩,
     ⟨packedArrDef, .storagePtr (.base 2 false none)⟩,
     ⟨constDef, .constantPtr⟩]
  storageAllocations := fun _ => none
  storageSize := fun d =>
    if d = arrElemDef then .words 2
    else if d = packedElemDef then .bytes 8
    else .words 1

/-- The root slot of variable `a`. -/
def slotRootA : Slot := .base 0 false none

/-- The slot of `a["b"]`. -/
def slotAB : Slot :=
  .child slotRootA 0 false (some (wrapElementaryViaDefinition (.str "b") .stringT))

/-- The slot of `a["b"][5]`. -/
def slotAB5 : Slot :=
  .child slotAB 0 false (some (wrapElementaryViaDefinition (.num 5) .uintT))

/-- The slot of `a["x"]` (a single-level mapping access). -/
def slotAX : Slot :=
  .child slotRootA 0 false (some (wrapElementaryViaDefinition (.str "x") .stringT))

/-- A sample chain-access collaborator returning a one-byte word everywhere. -/
def demoChain : String → Nat → Nat → List Nat := fun _ _ _ => [7]

/-- The fetch state after one `getStorage` call on the empty cache. -/
def demoFetch1 : FetchState := (getStorage demoChain "0xA" 1 2 initFetchState).2


/-- `pathClosed s keys`: ancestor closure restricted to registered slots lying on
the chain of `s` — the precise invariant the watch walk needs. -/
def pathClosed (s : Slot) (keys : List Slot) : Prop :=
  ∀ t ∈ slotChain s, t ∈ keys → ∀ x ∈ slotChain t, x.key.isSome → x ∈ keys

theorem equalSlots_iff (a b : Slot) : equalSlots a b = true ↔ a = b := by
  simp [equalSlots]

theorem all_not_equal_iff (keys : List Slot) (s : Slot) :
    (keys.all fun e => !equalSlots e s) = true ↔ s ∉ keys := by
  rw [List.all_eq_true]
  constructor
  · intro h hs
    have hss := h s hs
    simp [equalSlots] at hss
  · intro h e he
    simp only [equalSlots, Bool.not_eq_true', decide_eq_false_iff_not]
    intro heq
    exact h (heq ▸ he)

theorem self_mem_slotChain (s : Slot) : s ∈ slotChain s := by
  cases s <;> simp [slotChain]

theorem mem_slotChain_child (x p : Slot) (o : Nat) (h : Bool) (k : Option ElementaryValue) :
    x ∈ slotChain (.child p o h k) ↔ x = .child p o h k ∨ x ∈ slotChain p := by
  simp [slotChain]

theorem slotDepth_le_of_mem_slotChain (t : Slot) :
    ∀ s : Slot, t ∈ slotChain s → slotDepth t ≤ slotDepth s := by
  intro s
  induction s with
  | base o h k =>
    intro hm
    simp [slotChain] at hm
    subst hm
    exact Nat.le_refl _
  | child p o h k ih =>
    intro hm
    rw [mem_slotChain_child] at hm
    rcases hm with hm | hm
    · subst hm; exact Nat.le_refl _
    · exact Nat.le_trans (ih hm) (by simp [slotDepth])

theorem child_not_mem_slotChain (p : Slot) (o : Nat) (h : Bool)
    (k : Option ElementaryValue) : Slot.child p o h k ∉ slotChain p := by
  intro hm
  have := slotDepth_le_of_mem_slotChain _ _ hm
  simp [slotDepth] at this

theorem watchGo_base (o : Nat) (h : Bool) (k : Option ElementaryValue)
    (keys : List Slot) :
    watchGo (.base o h k) keys =
      if Slot.base o h k ∈ keys then keys
      else if k.isSome then keys ++ [Slot.base o h k] else keys := by
  rw [watchGo]
  by_cases hm : Slot.base o h k ∈ keys
  · have hc : ¬ ((keys.all fun e => !equalSlots e (Slot.base o h k)) = true) := by
      rw [all_not_equal_iff]
      exact fun hc => hc hm
    rw [if_neg hc, if_pos hm]
  · rw [if_pos ((all_not_equal_iff keys _).mpr hm), if_neg hm]

theorem watchGo_child (p : Slot) (o : Nat) (h : Bool) (k : Option ElementaryValue)
    (keys : List Slot) :
    watchGo (.child p o h k) keys =
      if Slot.child p o h k ∈ keys then keys
      else watchGo p (if k.isSome then keys ++ [Slot.child p o h k] else keys) := by
  rw [watchGo]
  by_cases hm : Slot.child p o h k ∈ keys
  · have hc : ¬ ((keys.all fun e => !equalSlots e (Slot.child p o h k)) = true) := by
      rw [all_not_equal_iff]
      exact fun hc => hc hm
    rw [if_neg hc, if_pos hm]
  · rw [if_pos ((all_not_equal_iff keys _).mpr hm), if_neg hm]

theorem watchGo_append (s : Slot) :
    ∀ keys : List Slot, ∃ l, watchGo s keys = keys ++ l := by
  induction s with
  | base o h k =>
    intro keys
    rw [watchGo_base]
    by_cases hm : Slot.base o h k ∈ keys
    · exact ⟨[], by rw [if_pos hm, List.append_nil]⟩
    · rw [if_neg hm]
      cases k with
      | none => exact ⟨[], by simp⟩
      | some kv => exact ⟨[Slot.base o h (some kv)], by simp⟩
  | child p o h k ih =>
    intro keys
    rw [watchGo_child]
    by_cases hm : Slot.child p o h k ∈ keys
    · exact ⟨[], by rw [if_pos hm, List.append_nil]⟩
    · rw [if_neg hm]
      cases k with
      | none =>
        simpa using ih keys
      | some kv =>
        obtain ⟨l, hl⟩ := ih (keys ++ [Slot.child p o h (some kv)])
        exact ⟨Slot.child p o h (some kv) :: l, by simp [hl]⟩

theorem mem_of_mem_watchGo_keys (s : Slot) (keys : List Slot) (x : Slot)
    (hx : x ∈ keys) : x ∈ watchGo s keys := by
  obtain ⟨l, hl⟩ := watchGo_append s keys
  rw [hl]
  exact List.mem_append_left _ hx

theorem watchGo_sound (s : Slot) :
    ∀ (keys : List Slot) (x : Slot), x ∈ watchGo s keys →
      x ∈ keys ∨ (x.key.isSome ∧ x ∈ slotChain s) := by
  induction s with
  | base o h k =>
    intro keys x hx
    rw [watchGo_base] at hx
    by_cases hm : Slot.base o h k ∈ keys
    · rw [if_pos hm] at hx
      exact Or.inl hx
    · rw [if_neg hm] at hx
      cases k with
      | none => exact Or.inl (by simpa using hx)
      | some kv =>
        simp only [Option.isSome_some, if_pos] at hx
        rcases List.mem_append.mp hx with hx | hx
        · exact Or.inl hx
        · right
          simp only [List.mem_singleton] at hx
          subst hx
          exact ⟨rfl, self_mem_slotChain _⟩
  | child p o h k ih =>
    intro keys x hx
    rw [watchGo_child] at hx
    by_cases hm : Slot.child p o h k ∈ keys
    · rw [if_pos hm] at hx
      exact Or.inl hx
    · rw [if_neg hm] at hx
      cases k with
      | none =>
        simp only [Option.isSome_none, Bool.false_eq_true, if_neg] at hx
        rcases ih keys x (by simpa using hx) with hx | ⟨hk, hc⟩
        · exact Or.inl hx
        · exact Or.inr ⟨hk, (mem_slotChain_child _ _ _ _ _).mpr (Or.inr hc)⟩
      | some kv =>
        simp only [Option.isSome_some, if_pos] at hx
        rcases ih _ x hx with hx | ⟨hk, hc⟩
        · rcases List.mem_append.mp hx with hx | hx
          · exact Or.inl hx
          · right
            simp only [List.mem_singleton] at hx
            subst hx
            exact ⟨rfl, self_mem_slotChain _⟩
        · exact Or.inr ⟨hk, (mem_slotChain_child _ _ _ _ _).mpr (Or.inr hc)⟩

theorem pathClosed_of_ancestorClosed (s : Slot) (keys : List Slot)
    (h : ancestorClosed keys) : pathClosed s keys := by
  intro t _ ht x hx hk
  exact h t ht x hx hk

theorem pathClosed_step (p : Slot) (o : Nat) (h : Bool)
    (k : Option ElementaryValue) (keys : List Slot)
    (hP : pathClosed (.child p o h k) keys) (l : List Slot)
    (hl : ∀ x ∈ l, x = Slot.child p o h k) :
    pathClosed p (keys ++ l) := by
  intro t ht hmem x hx hk
  rcases List.mem_append.mp hmem with hmem | hmem
  · have hts : t ∈ slotChain (.child p o h k) :=
      (mem_slotChain_child _ _ _ _ _).mpr (Or.inr ht)
    exact List.mem_append_left _ (hP t hts hmem x hx hk)
  · exfalso
    have := hl t hmem
    subst this
    exact child_not_mem_slotChain p o h k ht

theorem watchGo_mem_iff (s : Slot) :
    ∀ keys : List Slot, pathClosed s keys →
      ∀ x, x ∈ watchGo s keys ↔ x ∈ keys ∨ (x.key.isSome ∧ x ∈ slotChain s) := by
  induction s with
  | base o h k =>
    intro keys hP x
    rw [watchGo_base]
    by_cases hm : Slot.base o h k ∈ keys
    · rw [if_pos hm]
      constructor
      · exact Or.inl
      · rintro (hx | ⟨hk, hc⟩)
        · exact hx
        · simp only [slotChain, List.mem_singleton] at hc
          subst hc
          exact hm
    · rw [if_neg hm]
      cases k with
      | none =>
        simp only [Option.isSome_none, Bool.false_eq_true, if_neg]
        constructor
        · exact Or.inl
        · rintro (hx | ⟨hk, hc⟩)
          · exact hx
          · simp only [slotChain, List.mem_singleton] at hc
            subst hc
            simp [Slot.key] at hk
      | some kv =>
        simp only [Option.isSome_some, if_pos, List.mem_append, List.mem_singleton]
        constructor
        · rintro (hx | hx)
          · exact Or.inl hx
          · subst hx
            exact Or.inr ⟨rfl, self_mem_slotChain _⟩
        · rintro (hx | ⟨hk, hc⟩)
          · exact Or.inl hx
          · simp only [slotChain, List.mem_singleton] at hc
            exact Or.inr hc
  | child p o h k ih =>
    intro keys hP x
    rw [watchGo_child]
    by_cases hm : Slot.child p o h k ∈ keys
    · rw [if_pos hm]
      constructor
      · exact Or.inl
      · rintro (hx | ⟨hk, hc⟩)
        · exact hx
        · exact hP _ (self_mem_slotChain _) hm x hc hk
    · rw [if_neg hm]
      cases k with
      | none =>
        rw [if_neg (show ¬ ((none : Option ElementaryValue).isSome = true) by simp)]
        have hP2 : pathClosed p keys := by
          have := pathClosed_step p o h none keys hP [] (by simp)
          simpa using this
        rw [ih keys hP2 x, mem_slotChain_child]
        constructor
        · rintro (hx | ⟨hk, hc⟩)
          · exact Or.inl hx
          · exact Or.inr ⟨hk, Or.inr hc⟩
        · rintro (hx | ⟨hk, hc | hc⟩)
          · exact Or.inl hx
          · subst hc
            simp [Slot.key] at hk
          · exact Or.inr ⟨hk, hc⟩
      | some kv =>
        rw [if_pos (show ((some kv : Option ElementaryValue).isSome = true) by simp)]
        have hP2 : pathClosed p (keys ++ [Slot.child p o h (some kv)]) :=
          pathClosed_step p o h (some kv) keys hP _ (by simp)
        rw [ih _ hP2 x, mem_slotChain_child]
        simp only [List.mem_append, List.mem_singleton]
        constructor
        · rintro ((hx | hx) | ⟨hk, hc⟩)
          · exact Or.inl hx
          · subst hx
            exact Or.inr ⟨rfl, Or.inl rfl⟩
          · exact Or.inr ⟨hk, Or.inr hc⟩
        · rintro (hx | ⟨hk, hc | hc⟩)
          · exact Or.inl (Or.inl hx)
          · subst hc
            exact Or.inl (Or.inr rfl)
          · exact Or.inr ⟨hk, hc⟩

theorem watchGo_noop (p : Slot) :
    ∀ keys : List Slot, (∀ a ∈ slotChain p, a.key.isSome → a ∈ keys) →
      watchGo p keys = keys := by
  induction p with
  | base o h k =>
    intro keys hcl
    rw [watchGo_base]
    by_cases hm : Slot.base o h k ∈ keys
    · rw [if_pos hm]
    · rw [if_neg hm]
      cases k with
      | none => simp
      | some kv =>
        exfalso
        exact hm (hcl _ (self_mem_slotChain _) rfl)
  | child p o h k ih =>
    intro keys hcl
    rw [watchGo_child]
    by_cases hm : Slot.child p o h k ∈ keys
    · rw [if_pos hm]
    · rw [if_neg hm]
      cases k with
      | none =>
        rw [if_neg (show ¬ ((none : Option ElementaryValue).isSome = true) by simp)]
        exact ih keys fun a ha hk =>
          hcl a ((mem_slotChain_child _ _ _ _ _).mpr (Or.inr ha)) hk
      | some kv =>
        exfalso
        exact hm (hcl _ (self_mem_slotChain _) rfl)

theorem chainContains_iff (t : Slot) :
    ∀ s : Slot, chainContains t s = true ↔ t ∈ slotChain s := by
  intro s
  induction s with
  | base o h k =>
    simp only [chainContains, equalSlots_iff, slotChain, List.mem_singleton]
    constructor
    · intro h2; exact h2.symm
    · intro h2; exact h2.symm
  | child p o h k ih =>
    simp only [chainContains, Bool.or_eq_true, equalSlots_iff, ih,
      mem_slotChain_child]
    constructor
    · rintro (h2 | h2)
      · exact Or.inl h2.symm
      · exact Or.inr h2
    · rintro (h2 | h2)
      · exact Or.inl h2.symm
      · exact Or.inr h2

theorem watchGo_fresh (s : Slot) (keys : List Slot)
    (hanc : ∀ a ∈ slotChain s, a ≠ s → a.key.isSome → a ∈ keys)
    (hno : s ∉ keys) :
    watchGo s keys = keys ++ (if s.key.isSome then [s] else []) := by
  cases s with
  | base o h k =>
    rw [watchGo_base, if_neg hno]
    cases k with
    | none => simp [Slot.key]
    | some kv => simp [Slot.key]
  | child p o h k =>
    rw [watchGo_child, if_neg hno]
    have hbody : ∀ keys2 : List Slot,
        (∀ a ∈ slotChain p, a.key.isSome → a ∈ keys2) → watchGo p keys2 = keys2 :=
      fun keys2 hcl => watchGo_noop p keys2 hcl
    have hchain : ∀ a ∈ slotChain p, a.key.isSome → a ∈ keys := by
      intro a ha hk
      have hne : a ≠ Slot.child p o h k := by
        intro heq
        subst heq
        exact child_not_mem_slotChain p o h k ha
      exact hanc a ((mem_slotChain_child _ _ _ _ _).mpr (Or.inr ha)) hne hk
    cases k with
    | none =>
      rw [if_neg (show ¬ ((none : Option ElementaryValue).isSome = true) by simp)]
      rw [hbody keys hchain]
      simp [Slot.key]
    | some kv =>
      rw [if_pos (show ((some kv : Option ElementaryValue).isSome = true) by simp)]
      rw [hbody (keys ++ [Slot.child p o h (some kv)])
        (fun a ha hk => List.mem_append_left _ (hchain a ha hk))]
      simp [Slot.key]

theorem filter_not_chainContains_eq_self (s : Slot) (keys : List Slot)
    (h : ∀ e ∈ keys, s ∉ slotChain e) :
    keys.filter (fun e => !chainContains s e) = keys := by
  induction keys with
  | nil => rfl
  | cons e rest ih =>
    rw [List.filter_cons]
    have hnc : chainContains s e = false := by
      rw [← Bool.not_eq_true, chainContains_iff]
      exact h e (List.mem_cons_self e rest)
    rw [hnc]
    simp only [Bool.not_false, if_pos]
    rw [ih fun e2 he2 => h e2 (List.mem_cons_of_mem _ he2)]

theorem toBytes_length (bs : List Nat) (len : Nat) : (toBytes bs len).length = len := by
  unfold toBytes
  by_cases hle : bs.length ≤ len
  · rw [if_pos hle]
    simp
    omega
  · rw [if_neg hle]
    simp
    omega

theorem fetchInvariant_init : fetchInvariant initFetchState := by
  refine ⟨?_, ?_, ?_⟩
  · intro a s b hm
    simp [initFetchState] at hm
  · simp [initFetchState]
  · intro b a s w hw
    simp [initFetchState] at hw

theorem getStorage_step (chain : String → Nat → Nat → List Nat) (address : String)
    (slotVal block : Nat) (st : FetchState) (h : fetchInvariant st) :
    fetchInvariant (getStorage chain address slotVal block st).2 ∧
      ((getStorage chain address slotVal block st).1).length = WORD_SIZE := by
  obtain ⟨hcov, hnd, hsz⟩ := h
  unfold getStorage
  cases hcache : st.storageCache block address slotVal with
  | some w =>
    exact ⟨⟨hcov, hnd, hsz⟩, hsz _ _ _ _ hcache⟩
  | none =>
    simp only
    refine ⟨⟨?_, ?_, ?_⟩, toBytes_length _ _⟩
    · intro a s b hm
      rcases List.mem_append.mp hm with hm | hm
      · by_cases heq : b = block ∧ a = address ∧ s = slotVal
        · simp only [heq, if_pos, Option.isSome_some]
          simp
        · simp only [if_neg heq]
          exact hcov a s b hm
      · simp only [List.mem_singleton] at hm
        have h1 : a = address := congrArg Prod.fst hm
        have h2 : s = slotVal := congrArg (fun p => p.2.1) hm
        have h3 : b = block := congrArg (fun p => p.2.2) hm
        subst h1; subst h2; subst h3
        simp
    · rw [List.nodup_append]
      refine ⟨hnd, List.nodup_singleton _, ?_⟩
      intro t ht ht2
      simp only [List.mem_singleton] at ht2
      subst ht2
      have := hcov address slotVal block ht
      rw [hcache] at this
      simp at this
    · intro b a s w hw
      dsimp only at hw
      by_cases heq : b = block ∧ a = address ∧ s = slotVal
      · rw [if_pos heq] at hw
        injection hw with hw
        rw [← hw]
        exact toBytes_length _ _
      · rw [if_neg heq] at hw
        exact hsz b a s w hw

theorem runCalls_invariant (chain : String → Nat → Nat → List Nat)
    (calls : List (String × Nat × Nat)) :
    ∀ st : FetchState, fetchInvariant st → fetchInvariant (runCalls chain calls st) := by
  induction calls with
  | nil => exact fun st h => h
  | cons c rest ih =>
    intro st h
    obtain ⟨a, s, b⟩ := c
    exact ih _ (getStorage_step chain a s b st h).1

theorem filter_eq_length_le_one_of_nodup {α : Type} [DecidableEq α] :
    ∀ l : List α, l.Nodup → ∀ t : α, (l.filter fun r => decide (r = t)).length ≤ 1 := by
  intro l
  induction l with
  | nil => intro _ t; simp
  | cons a rest ih =>
    intro hnd t
    rw [List.filter_cons]
    by_cases ha : a = t
    · rw [if_pos (by simpa using ha)]
      have hrest : rest.filter (fun r => decide (r = t)) = [] := by
        rw [List.filter_eq_nil_iff]
        intro b hb
        simp only [decide_eq_true_eq]
        intro hbt
        apply (List.nodup_cons.mp hnd).1
        rw [ha, ← hbt]
        exact hb
      rw [hrest]
      simp
    · rw [if_neg (by simpa using ha)]
      exact ih (List.nodup_cons.mp hnd).2 t

/-- C1: if the storage cache already holds an entry for
(block, address, slot), `getStorage` returns that entry and issues no chain
read; otherwise it performs exactly one chain read, stores the normalized word
under the triple, and returns it; and across any sequence of calls starting
from the fresh cache, at most one chain read occurs per distinct
(address, slot, block) triple. -/
theorem getStorage_single_read_per_triple
    (chain : String → Nat → Nat → List Nat) (address : String) (slotVal block : Nat)
    (st : FetchState) (w : List Nat) (calls : List (String × Nat × Nat))
    (t : String × Nat × Nat) :
    (st.storageCache block address slotVal = some w →
        getStorage chain address slotVal block st = (w, st)) ∧
      (st.storageCache block address slotVal = none →
        (getStorage chain address slotVal block st).1
            = toBytes (chain address slotVal block) WORD_SIZE ∧
          (getStorage chain address slotVal block st).2.chainReads
            = st.chainReads ++ [(address, slotVal, block)] ∧
          (getStorage chain address slotVal block st).2.storageCache block address slotVal
            = some (toBytes (chain address slotVal block) WORD_SIZE)) ∧
      ((runCalls chain calls initFetchState).chainReads.filter
          fun r => decide (r = t)).length ≤ 1 := by
  refine ⟨?_, ?_, ?_⟩
  · intro hc
    unfold getStorage
    rw [hc]
  · intro hc
    unfold getStorage
    rw [hc]
    refine ⟨rfl, rfl, ?_⟩
    dsimp only
    rw [if_pos ⟨rfl, rfl, rfl⟩]
  · have hinv := runCalls_invariant chain calls initFetchState fetchInvariant_init
    exact filter_eq_length_le_one_of_nodup _ hinv.2.1 t

/-- Witness for C1: concrete cache-hit, cache-miss, and repeated-call runs. -/
theorem getStorage_single_read_per_triple_witness :
    getStorage demoChain "0xA" 1 2 demoFetch1
        = (toBytes (demoChain "0xA" 1 2) WORD_SIZE, demoFetch1) ∧
      (getStorage demoChain "0xA" 1 2 initFetchState).2.chainReads = [("0xA", 1, 2)] ∧
      ((runCalls demoChain [("0xA", 1, 2), ("0xA", 1, 2)] initFetchState).chainReads.filter
          fun r => decide (r = ("0xA", 1, 2))).length ≤ 1 := by
  refine ⟨?_, ?_, ?_⟩
  · exact (getStorage_single_read_per_triple demoChain "0xA" 1 2 demoFetch1
      (toBytes (demoChain "0xA" 1 2) WORD_SIZE) [] ("0xA", 1, 2)).1 (by decide)
  · have h := (getStorage_single_read_per_triple demoChain "0xA" 1 2 initFetchState
      [] [] ("0xA", 1, 2)).2.1 (by decide)
    rw [h.2.1]
    decide
  · exact (getStorage_single_read_per_triple demoChain "0xA" 1 2 initFetchState
      [] [("0xA", 1, 2), ("0xA", 1, 2)] ("0xA", 1, 2)).2.2

/-- C10: for every (address, slot, block) and every reachable cache state, the
byte array returned by `getStorage` has exactly 32 bytes — the fetched word is
normalized by `toBytes` to `WORD_SIZE` before being cached and returned, and a
cache hit returns a previously normalized 32-byte word. -/
theorem getStorage_word_length (chain : String → Nat → Nat → List Nat)
    (address : String) (slotVal block : Nat) (calls : List (String × Nat × Nat)) :
    ((getStorage chain address slotVal block (runCalls chain calls initFetchState)).1).length
      = 32 :=
  (getStorage_step chain address slotVal block _
    (runCalls_invariant chain calls initFetchState fetchInvariant_init)).2

theorem constructSlot_snoc (env : DecoderEnv) (v : VarRef) (idxs : List Idx)
    (i : Idx) :
    constructSlot env v (idxs ++ [i]) = constructSlotRev env v (i :: idxs.reverse) := by
  unfold constructSlot
  rw [List.reverse_append]
  rfl

/-- C2 counterexample: for an unknown variable name, slot construction does not
return the no-slot sentinel — the JS code dereferences `.definition` of the
`undefined` result of `find` and raises a `TypeError`. -/
theorem constructSlot_unknown_variable_raises :
    constructSlot demoEnv (.str "nosuch") [] = .error .typeError := by decide

/-- C2 amended: slot construction degrades to the no-slot sentinel without
raising in exactly these failure modes — a constant variable, a failed parent
resolution, indexing into a non-indexable parent type, and an array element
size that is not a whole number of words; unknown variable names, non-numeric
array indices, and unknown struct members raise instead. -/
theorem constructSlot_soft_failure_cases (env : DecoderEnv) (v : VarRef)
    (idxs : List Idx) (i : Idx) (alloc : StorageMemberAllocation) (ps : Slot)
    (nm : String) (idn : Nat) (baseT : AstDefinition) (dyn : Bool) (n bl : Nat) :
    (env.stateVariableReferences.find? (fun a => matchesVariable v a.definition)
          = some alloc →
        alloc.pointer = .constantPtr → constructSlot env v [] = .ok none) ∧
      (constructSlot env v idxs = .ok none →
        constructSlot env v (idxs ++ [i]) = .ok none) ∧
      (constructSlot env v idxs = .ok (some (ps, .otherDef nm idn)) →
        constructSlot env v (idxs ++ [i]) = .ok none) ∧
      (constructSlot env v idxs = .ok (some (ps, .arrayDef nm idn baseT dyn)) →
        toBN i = some n → env.storageSize baseT = .bytes bl →
        constructSlot env v (idxs ++ [i]) = .ok none) := by
  refine ⟨?_, ?_, ?_, ?_⟩
  · intro hfind hconst
    unfold constructSlot
    rw [List.reverse_nil, constructSlotRev, hfind]
    dsimp only
    rw [hconst]
  · intro h
    rw [constructSlot_snoc, constructSlotRev]
    unfold constructSlot at h
    rw [h]
  · intro h
    rw [constructSlot_snoc, constructSlotRev]
    unfold constructSlot at h
    rw [h]
  · intro h hbn hsz
    rw [constructSlot_snoc, constructSlotRev]
    unfold constructSlot at h
    rw [h]
    dsimp only
    rw [hbn]
    dsimp only
    rw [hsz]

/-- Witness for the amended C2: all four soft-failure modes realized on the
sample layout. -/
theorem constructSlot_soft_failure_cases_witness :
    constructSlot demoEnv (.str "c") [] = .ok none ∧
      constructSlot demoEnv (.str "c") [Idx.num 0] = .ok none ∧
      constructSlot demoEnv (.str "a") [.str "b", .num 5, .num 0] = .ok none ∧
      constructSlot demoEnv (.str "parr") [.num 3] = .ok none := by
  refine ⟨?_, ?_, ?_, ?_⟩
  · exact (constructSlot_soft_failure_cases demoEnv (.str "c") [] (.num 0)
      ⟨constDef, .constantPtr⟩ slotRootA "" 0 uintLeafDef false 0 0).1
      (by decide) (by decide)
  · exact (constructSlot_soft_failure_cases demoEnv (.str "c") [] (.num 0)
      ⟨constDef, .constantPtr⟩ slotRootA "" 0 uintLeafDef false 0 0).2.1
      (by decide)
  · exact (constructSlot_soft_failure_cases demoEnv (.str "a")
      [.str "b", .num 5] (.num 0) ⟨constDef, .constantPtr⟩ slotAB5 "leaf" 3
      uintLeafDef false 0 0).2.2.1 (by decide)
  · exact (constructSlot_soft_failure_cases demoEnv (.str "parr") [] (.num 3)
      ⟨constDef, .constantPtr⟩ (.base 2 false none) "parr" 20 packedElemDef
      false 3 8).2.2.2 (by decide) (by decide) (by decide)

/-- C3: for an array-typed parent with a resolvable parent slot and an index
coercible to an unsigned integer, `constructSlot` returns a slot whose offset
is the index times the element size in words and whose `hashPath` flag equals
the parent array's dynamic-size flag; when the element's storage size is not a
whole number of words it returns the no-slot sentinel instead. -/
theorem constructSlot_array_case (env : DecoderEnv) (v : VarRef) (idxs : List Idx)
    (i : Idx) (ps : Slot) (nm : String) (idn : Nat) (baseT : AstDefinition)
    (dyn : Bool) (n : Nat)
    (hparent : constructSlot env v idxs = .ok (some (ps, .arrayDef nm idn baseT dyn)))
    (hidx : toBN i = some n) :
    (∀ w2 : Nat, env.storageSize baseT = .words w2 →
        constructSlot env v (idxs ++ [i])
            = .ok (some (.child ps (n * w2) dyn none, baseT)) ∧
          (Slot.child ps (n * w2) dyn none).offset = n * w2 ∧
          (Slot.child ps (n * w2) dyn none).hashPath = dyn) ∧
      ∀ bl : Nat, env.storageSize baseT = .bytes bl →
        constructSlot env v (idxs ++ [i]) = .ok none := by
  constructor
  · intro w2 hsz
    refine ⟨?_, rfl, rfl⟩
    rw [constructSlot_snoc, constructSlotRev]
    unfold constructSlot at hparent
    rw [hparent]
    dsimp only
    rw [hidx]
    dsimp only
    rw [hsz]
  · intro bl hsz
    rw [constructSlot_snoc, constructSlotRev]
    unfold constructSlot at hparent
    rw [hparent]
    dsimp only
    rw [hidx]
    dsimp only
    rw [hsz]

/-- Witness for C3: `arr[3]` with two-word elements lands at offset 6 with
`hashPath` true (dynamic array); `parr[3]` with packed elements fails softly. -/
theorem constructSlot_array_case_witness :
    constructSlot demoEnv (.str "arr") [.num 3]
        = .ok (some (.child (.base 1 false none) 6 true none, arrElemDef)) ∧
      (Slot.child (.base 1 false none) 6 true none).hashPath = true ∧
      constructSlot demoEnv (.str "parr") [.num 3] = .ok none := by
  refine ⟨?_, ?_, ?_⟩
  · exact ((constructSlot_array_case demoEnv (.str "arr") [] (.num 3)
      (.base 1 false none) "arr" 10 arrElemDef true 3 (by decide) (by decide)).1
      2 (by decide)).1
  · exact ((constructSlot_array_case demoEnv (.str "arr") [] (.num 3)
      (.base 1 false none) "arr" 10 arrElemDef true 3 (by decide) (by decide)).1
      2 (by decide)).2.2
  · exact (constructSlot_array_case demoEnv (.str "parr") [] (.num 3)
      (.base 2 false none) "parr" 20 packedElemDef false 3 (by decide)
      (by decide)).2 8 (by decide)

/-- C4: for a mapping-typed parent with a resolvable parent slot,
`constructSlot` returns a slot whose key is the raw index coerced into an
elementary value tagged with the mapping's declared key type, whose path is
the parent slot, and whose offset is exactly zero. -/
theorem constructSlot_mapping_case (env : DecoderEnv) (v : VarRef)
    (idxs : List Idx) (i : Idx) (ps : Slot) (nm : String) (idn : Nat)
    (kT : ElemType) (vT : AstDefinition)
    (hparent : constructSlot env v idxs = .ok (some (ps, .mappingDef nm idn kT vT))) :
    constructSlot env v (idxs ++ [i])
        = .ok (some (.child ps 0 false (some (wrapElementaryViaDefinition i kT)), vT)) ∧
      (Slot.child ps 0 false (some (wrapElementaryViaDefinition i kT))).key
        = some (wrapElementaryViaDefinition i kT) ∧
      (Slot.child ps 0 false (some (wrapElementaryViaDefinition i kT))).path = some ps ∧
      (Slot.child ps 0 false (some (wrapElementaryViaDefinition i kT))).offset = 0 := by
  refine ⟨?_, rfl, rfl, rfl⟩
  rw [constructSlot_snoc, constructSlotRev]
  unfold constructSlot at hparent
  rw [hparent]

/-- Witness for C4: `a["b"]` receives the string-tagged key, parent path, and
offset zero. -/
theorem constructSlot_mapping_case_witness :
    constructSlot demoEnv (.str "a") [.str "b"] = .ok (some (slotAB, innerMapDef)) ∧
      slotAB.key = some (wrapElementaryViaDefinition (.str "b") .stringT) ∧
      slotAB.path = some slotRootA ∧
      slotAB.offset = 0 :=
  constructSlot_mapping_case demoEnv (.str "a") [] (.str "b") slotRootA "a" 1
    .stringT innerMapDef (by decide)

/-- C5: for a watch call whose slot chain resolves, starting from an
ancestor-closed registry, the walk registers exactly the keyed slots of the
chain that were not already present: afterwards a slot is registered iff it
was registered before or it is a keyed slot on the resolved chain.  In
particular every keyed ancestor (such as the slot of the partial access
`a["b"]` under `watch("a","b",5)`) ends up registered. -/
theorem watchMappingKey_registers_chain (env : DecoderEnv) (v : VarRef)
    (idxs : List Idx) (keys : List Slot) (s : Slot) (d : AstDefinition)
    (hanc : ancestorClosed keys)
    (hs : constructSlot env v idxs = .ok (some (s, d))) :
    watchMappingKey env v idxs keys = .ok (watchGo s keys) ∧
      ∀ x, x ∈ watchGo s keys ↔ x ∈ keys ∨ (x.key.isSome ∧ x ∈ slotChain s) := by
  constructor
  · unfold watchMappingKey
    rw [hs]
  · exact watchGo_mem_iff s keys (pathClosed_of_ancestorClosed s keys hanc)

/-- Witness for C5: `watch("a","b",5)` on the empty registry also registers the
slot of `a["b"]` alone. -/
theorem watchMappingKey_registers_chain_witness :
    watchMappingKey demoEnv (.str "a") [.str "b", .num 5] [] = .ok (watchGo slotAB5 []) ∧
      slotAB ∈ watchGo slotAB5 [] := by
  have h := watchMappingKey_registers_chain demoEnv (.str "a") [.str "b", .num 5]
    [] slotAB5 uintLeafDef
    (by intro e he; exact absurd he (List.not_mem_nil e)) (by decide)
  exact ⟨h.1, (h.2 slotAB).mpr (Or.inr ⟨by decide, by decide⟩)⟩

/-- C6: for an unwatch call whose target slot resolves, exactly those
registered keys are removed whose root-ward walk contains a slot structurally
equal to the target — the target itself and all its descendants; every other
registered key is kept. -/
theorem unwatchMappingKey_removes_descendants (env : DecoderEnv) (v : VarRef)
    (idxs : List Idx) (keys : List Slot) (s : Slot) (d : AstDefinition)
    (hs : constructSlot env v idxs = .ok (some (s, d))) :
    unwatchMappingKey env v idxs keys
        = .ok (keys.filter fun e => !chainContains s e) ∧
      ∀ x, x ∈ keys.filter (fun e => !chainContains s e) ↔
        x ∈ keys ∧ s ∉ slotChain x := by
  constructor
  · unfold unwatchMappingKey
    rw [hs]
  · intro x
    rw [List.mem_filter]
    constructor
    · rintro ⟨hx, hf⟩
      refine ⟨hx, ?_⟩
      rw [Bool.not_eq_true', ← Bool.not_eq_true, chainContains_iff] at hf
      exact hf
    · rintro ⟨hx, hf⟩
      refine ⟨hx, ?_⟩
      rw [Bool.not_eq_true', ← Bool.not_eq_true, chainContains_iff]
      exact hf

/-- Witness for C6: unwatching `a["b"]` removes both `a["b"]` and its
descendant `a["b"][5]` from the registry. -/
theorem unwatchMappingKey_removes_descendants_witness :
    unwatchMappingKey demoEnv (.str "a") [.str "b"] [slotAB5, slotAB]
        = .ok ([slotAB5, slotAB].filter fun e => !chainContains slotAB e) ∧
      slotAB5 ∉ [slotAB5, slotAB].filter (fun e => !chainContains slotAB e) := by
  have h := unwatchMappingKey_removes_descendants demoEnv (.str "a") [.str "b"]
    [slotAB5, slotAB] slotAB innerMapDef (by decide)
  exact ⟨h.1, fun hmem => ((h.2 slotAB5).mp hmem).2 (by decide)⟩

/-- C7 counterexample: on the nested mapping `a`, `watch("a","b",5)` followed
by `unwatch("a","b",5)` from the empty registry leaves the ancestor slot of
`a["b"]` registered — the registry is not restored even though nothing was
independently added. -/
theorem watch_unwatch_leaves_ancestor :
    (watchMappingKey demoEnv (.str "a") [.str "b", .num 5] []).bind
        (unwatchMappingKey demoEnv (.str "a") [.str "b", .num 5])
      = .ok [slotAB] ∧ ([slotAB] : List Slot) ≠ [] := by
  constructor
  · decide
  · decide

/-- C7 amended: `watch` then `unwatch` with identical arguments restores the
registry exactly, provided the watched slot itself is not yet registered, no
registered key is a descendant of it, and every keyed proper ancestor of it is
already registered before the watch. -/
theorem watch_unwatch_roundtrip (env : DecoderEnv) (v : VarRef) (idxs : List Idx)
    (keys : List Slot) (s : Slot) (d : AstDefinition)
    (hs : constructSlot env v idxs = .ok (some (s, d)))
    (hanc : ∀ a ∈ slotChain s, a ≠ s → a.key.isSome = true → a ∈ keys)
    (hnodesc : ∀ e ∈ keys, s ∉ slotChain e) :
    (watchMappingKey env v idxs keys).bind (unwatchMappingKey env v idxs)
      = .ok keys := by
  have hno : s ∉ keys := fun hmem => hnodesc s hmem (self_mem_slotChain s)
  have hw := watchGo_fresh s keys hanc hno
  unfold watchMappingKey
  rw [hs]
  show unwatchMappingKey env v idxs (watchGo s keys) = .ok keys
  unfold unwatchMappingKey
  rw [hs, hw]
  dsimp only
  rw [List.filter_append, filter_not_chainContains_eq_self s keys hnodesc]
  have hself : chainContains s s = true :=
    (chainContains_iff s s).mpr (self_mem_slotChain s)
  cases hk : s.key.isSome with
  | true =>
    rw [if_pos rfl, List.filter_cons]
    rw [hself]
    simp
  | false =>
    rw [if_neg (by simp)]
    simp

/-- Witness for the amended C7: a single-level mapping watch/unwatch roundtrip
on the empty registry. -/
theorem watch_unwatch_roundtrip_witness :
    (watchMappingKey demoEnv (.str "a") [.str "x"] []).bind
        (unwatchMappingKey demoEnv (.str "a") [.str "x"])
      = .ok [] := by
  apply watch_unwatch_roundtrip demoEnv (.str "a") [.str "x"] [] slotAX innerMapDef
  · decide
  · intro a ha hne hk
    exfalso
    have hmem : a = slotAX ∨ a = slotRootA := by
      simpa [slotAX, slotRootA, slotChain] using ha
    rcases hmem with h1 | h1
    · exact hne h1
    · rw [h1] at hk
      simp [slotRootA, Slot.key] at hk
  · intro e he
    exact absurd he (List.not_mem_nil e)

/-- C8: for a variable whose pointer is a constant marker, slot construction
returns the no-slot sentinel for every index list, and watch/unwatch on that
variable terminate without error and leave the mapping-key registry unchanged. -/
theorem constant_variable_silent_noop (env : DecoderEnv) (v : VarRef)
    (alloc : StorageMemberAllocation)
    (hfind : env.stateVariableReferences.find?
        (fun a => matchesVariable v a.definition) = some alloc)
    (hconst : alloc.pointer = .constantPtr) :
    ∀ (idxs : List Idx) (keys : List Slot),
      constructSlot env v idxs = .ok none ∧
        watchMappingKey env v idxs keys = .ok keys ∧
        unwatchMappingKey env v idxs keys = .ok keys := by
  have hrev : ∀ l : List Idx, constructSlotRev env v l = .ok none := by
    intro l
    induction l with
    | nil =>
      rw [constructSlotRev, hfind]
      dsimp only
      rw [hconst]
    | cons i rest ih =>
      rw [constructSlotRev, ih]
  intro idxs keys
  have hcs : constructSlot env v idxs = .ok none := hrev idxs.reverse
  refine ⟨hcs, ?_, ?_⟩
  · unfold watchMappingKey
    rw [hcs]
  · unfold unwatchMappingKey
    rw [hcs]

/-- Witness for C8: the constant variable `c` of the sample layout, with a
nonempty index list and a nonempty registry. -/
theorem constant_variable_silent_noop_witness :
    constructSlot demoEnv (.str "c") [Idx.num 1] = .ok none ∧
      watchMappingKey demoEnv (.str "c") [Idx.num 1] [slotAB] = .ok [slotAB] ∧
      unwatchMappingKey demoEnv (.str "c") [Idx.num 1] [slotAB] = .ok [slotAB] :=
  constant_variable_silent_noop demoEnv (.str "c") ⟨constDef, .constantPtr⟩
    (by decide) (by decide) [Idx.num 1] [slotAB]

/-- C9: in every registry state reachable by any sequence of watch and unwatch
operations from the empty registry, every slot stored in the mapping-key
registry has a defined key. -/
theorem registry_only_keyed_slots (env : DecoderEnv) (ops : List RegistryOp) :
    (applyOps env ops []).all (fun s => s.key.isSome) = true := by
  suffices h : ∀ keys : List Slot, keys.all (fun s => s.key.isSome) = true →
      (applyOps env ops keys).all (fun s => s.key.isSome) = true by
    exact h [] rfl
  induction ops with
  | nil => exact fun keys h => h
  | cons op rest ih =>
    intro keys hall
    rw [applyOps]
    apply ih
    cases op with
    | watchOp v idx =>
      rw [applyOp]
      unfold watchMappingKey
      cases hs : constructSlot env v idx with
      | error e => exact hall
      | ok r =>
        cases r with
        | none => exact hall
        | some sd =>
          obtain ⟨s, d⟩ := sd
          dsimp only
          rw [List.all_eq_true] at hall ⊢
          intro x hx
          rcases watchGo_sound s keys x hx with hx2 | ⟨hk, _⟩
          · exact hall x hx2
          · simpa using hk
    | unwatchOp v idx =>
      rw [applyOp]
      unfold unwatchMappingKey
      cases hs : constructSlot env v idx with
      | error e => exact hall
      | ok r =>
        cases r with
        | none => exact hall
        | some sd =>
          obtain ⟨s, d⟩ := sd
          dsimp only
          rw [List.all_eq_true] at hall ⊢
          intro x hx
          exact hall x (List.mem_of_mem_filter hx)

example : constructSlot demoEnv (.str "a") [.str "b", .num 5] =
    .ok (some (slotAB5, uintLeafDef)) := by decide

example : constructSlot demoEnv (.str "arr") [.num 3] =
    .ok (some (.child (.base 1 false none) 6 true none, arrElemDef)) := by decide

example : constructSlot demoEnv (.str "parr") [.num 3] = .ok none := by decide

example : constructSlot demoEnv (.str "c") [] = .ok none := by decide

example : constructSlot demoEnv (.str "nosuch") [] = .error .typeError := by decide

example : constructSlot demoEnv (.str "arr") [.str "zzz"] = .error .typeError := by decide

example : watchGo slotAB5 [] = [slotAB5, slotAB] := by decide
